import Mathlib

/-!
Shallow embedding of the `srthg` evolutionary-search engine (Rust sources:
agent.rs, population.rs, operations.rs, fitness.rs).  Randomness is made
explicit: every `rng.gen_range(0, n)` draw becomes a function argument, and
`genRange` returns `none` exactly when the Rust call would panic (empty
range).  Fallible paths (panics, `Result::Err`) are modelled with `Option`.
The `DefaultHasher` content hash is modelled by an explicitly passed hash
function over the gene list.
-/

namespace Srthg

/-- Modulus of u64 arithmetic. -/
def u64Mod : Nat := 2 ^ 64

/-- Model of rand's `rng.gen_range(0, n)`: a uniform draw in `[0, n)`.
The raw randomness `r` is an explicit argument; any value in range is
realizable as `r % n`.  The Rust call panics when the range is empty
(`low >= high`), modelled as `none`. -/
def genRange (n r : Nat) : Option Nat :=
  if n = 0 then none else some (r % n)

/-- One candidate solution (`struct Agent` in agent.rs): an ordered gene
sequence plus the eagerly computed content hash over the whole sequence. -/
structure Agent (G : Type) where
  genes : List G
  hash : Nat
deriving DecidableEq, Repr

/-- One iteration of the loop body of `Agent::mutate` (agent.rs): remove the
gene at a uniform position of `[0, geneCount)`, then insert a fresh gene at a
uniform position of `[0, geneCount - 1)`.  `geneCount` is the length captured
before the loop.  `none` models a `gen_range` panic. -/
def mutateStep {G : Type} (geneCount : Nat) (g : List G) (r1 r2 : Nat) (fresh : G) :
    Option (List G) :=
  match genRange geneCount r1 with
  | none => none
  | some i =>
    let g' := g.eraseIdx i
    match genRange (geneCount - 1) r2 with
    | none => none
    | some j => some (g'.insertIdx j fresh)

/-- `Agent::mutate` (agent.rs): exactly 5 sequential remove-then-insert
perturbations, then the hash is recomputed over the resulting genes.
`rand1 i`, `rand2 i` are the two raw random draws of iteration `i` and
`fresh i` the freshly sampled gene. -/
def Agent.mutate {G : Type} (hashFn : List G → Nat) (rand1 rand2 : Fin 5 → Nat)
    (fresh : Fin 5 → G) (a : Agent G) : Option (Agent G) :=
  match (List.finRange 5).foldlM
      (fun g i => mutateStep a.genes.length g (rand1 i) (rand2 i) (fresh i)) a.genes with
  | none => none
  | some g => some { genes := g, hash := hashFn g }

/-- `Agent::crossover_some_genes` (agent.rs), applied to `self = a` with
partner `other`: pick a crossover point uniformly in
`[0, min (len a) (len other))`, shift it on the longer side by the length
difference, then splice prefix of `a` with suffix of `other` and recompute
the hash.  `none` models the `gen_range` panic on an empty range. -/
def crossover_some_genes {G : Type} (hashFn : List G → Nat) (a other : Agent G)
    (r : Nat) : Option (Agent G) :=
  let self_len := a.genes.length
  let other_len := other.genes.length
  let gene_count := if self_len > other_len then other_len else self_len
  match genRange gene_count r with
  | none => none
  | some crossover_point =>
    let self_crossover_point :=
      if self_len > other_len then crossover_point + (self_len - other_len)
      else crossover_point
    let other_crossover_point :=
      if other_len > self_len then crossover_point + (other_len - self_len)
      else crossover_point
    let genes := a.genes.take self_crossover_point ++ other.genes.drop other_crossover_point
    some { genes := genes, hash := hashFn genes }

/-- `mate` (agent.rs): clone parent 1 and cross it with parent 2. -/
def mate {G : Type} (hashFn : List G → Nat) (parent1 parent2 : Agent G) (r : Nat) :
    Option (Agent G) :=
  crossover_some_genes hashFn parent1 parent2 r

/-- `rate_to_number` (operations.rs).  The f64 arithmetic
`(population as f64 * rate) as usize` is modelled exactly over `ℚ`
(truncation toward zero of a non-negative product is the floor; a negative
product saturates to 0, matched by `Int.toNat`).  On every input appearing
in the claims the f64 result and the exact rational result coincide. -/
def rate_to_number (population : Nat) (rate : ℚ) (preferred_minimum : Nat) : Nat :=
  if population < preferred_minimum then
    population
  else
    let number := (⌊(population : ℚ) * rate⌋).toNat
    if number < preferred_minimum then preferred_minimum else number

/-- `struct Population` (population.rs): a `BTreeMap<Score, Agent>` modelled
as an association list with strictly ascending keys (established by
construction from the empty map), a `HashSet<u64>` of genome hashes modelled
as a duplicate-free list, and the uniqueness flag. -/
structure Population (G : Type) where
  agents : List (Nat × Agent G)
  register : List Nat
  unique_agents : Bool
deriving DecidableEq, Repr

namespace Population

/-- `Population::new_empty` (population.rs). -/
def new_empty (G : Type) (unique : Bool) : Population G :=
  { agents := [], register := [], unique_agents := unique }

/-- `BTreeMap::insert` on the ascending association list: insert the pair at
its ordered position, replacing the value if the key is already present. -/
def btInsert {G : Type} (k : Nat) (v : Agent G) :
    List (Nat × Agent G) → List (Nat × Agent G)
  | [] => [(k, v)]
  | (k', v') :: t =>
    if k < k' then (k, v) :: (k', v') :: t
    else if k = k' then (k, v) :: t
    else (k', v') :: btInsert k v t

/-- Keys of the map, ascending (`BTreeMap::keys`). -/
def keys {G : Type} (p : Population G) : List Nat :=
  p.agents.map (fun e => e.1)

/-- `Population::len` (population.rs). -/
def len {G : Type} (p : Population G) : Nat :=
  p.agents.length

/-- `Population::contains_score` (population.rs). -/
def contains_score {G : Type} (p : Population G) (score : Nat) : Bool :=
  p.agents.any (fun e => e.1 == score)

/-- `Population::will_accept` (population.rs): with uniqueness on, accept
only genomes whose hash is not registered. -/
def will_accept {G : Type} (p : Population G) (agent : Agent G) : Bool :=
  if p.unique_agents then !(p.register.contains agent.hash) else true

/-- `Population::insert` (population.rs): under uniqueness, a no-op when the
genome hash is already registered, otherwise the hash is registered; either
way the agent is then inserted into the map at `score` (replacing any entry
already at that exact key). -/
def insert {G : Type} (p : Population G) (score : Nat) (agent : Agent G) :
    Population G :=
  if p.unique_agents then
    if p.register.contains agent.hash then p
    else { p with
           register := p.register.insert agent.hash,
           agents := btInsert score agent p.agents }
  else { p with agents := btInsert score agent p.agents }

/-- `Population::get` (population.rs). -/
def get {G : Type} (p : Population G) (score : Nat) : Option (Agent G) :=
  (p.agents.find? (fun e => e.1 == score)).map (fun e => e.2)

/-- `Population::remove` (population.rs): remove the map entry at `score`
(if any) and, under uniqueness, drop the removed agent's hash from the
register.  Returns the removed agent and the updated population. -/
def remove {G : Type} (p : Population G) (score : Nat) :
    Option (Agent G) × Population G :=
  match p.agents.find? (fun e => e.1 == score) with
  | none => (none, p)
  | some e =>
    (some e.2,
     { p with
       agents := p.agents.filter (fun e' => !(e'.1 == score)),
       register := if p.unique_agents then p.register.erase e.2.hash else p.register })

/-- Register rebuild shared by both cull operations: clear, then re-insert
the hash of every retained agent (`HashSet::insert` ignores duplicates). -/
def rebuiltRegister {G : Type} (retained : List (Nat × Agent G)) : List Nat :=
  retained.foldl (fun r e => r.insert e.2.hash) []

/-- `Population::cull_all_below` (population.rs): `split_off(&score)` keeps
exactly the entries with key `≥ score`; then the register is rebuilt from
the retained entries when uniqueness is on. -/
def cull_all_below {G : Type} (p : Population G) (score : Nat) : Population G :=
  let retained := p.agents.filter (fun e => decide (score ≤ e.1))
  { p with
    agents := retained,
    register := if p.unique_agents then rebuiltRegister retained else p.register }

/-- `Population::cull_all_above` (population.rs): discard the `split_off`
result, keeping exactly the entries with key `< score`; then rebuild the
register when uniqueness is on. -/
def cull_all_above {G : Type} (p : Population G) (score : Nat) : Population G :=
  let retained := p.agents.filter (fun e => decide (e.1 < score))
  { p with
    agents := retained,
    register := if p.unique_agents then rebuiltRegister retained else p.register }

/-- `Population::get_scores` (population.rs). -/
def get_scores {G : Type} (p : Population G) : List Nat :=
  p.keys

/-- `Population::get_random_score` (population.rs): index the key list at a
uniform position; on an empty population the underlying `gen_range(0, 0)`
panics (`none`). -/
def get_random_score {G : Type} (p : Population G) (r : Nat) : Option Nat :=
  (genRange p.len r).map (fun i => p.get_scores.getD i 0)

/-- The collision loop of `Population::new` (population.rs, lines 60-69):
starting from the jittered score, decrement while the key is occupied, and
stop at 0 unconditionally. -/
def resolveCollision {G : Type} (p : Population G) : Nat → Nat
  | 0 => 0
  | s + 1 => if p.contains_score (s + 1) then resolveCollision p s else s + 1

/-- Loop body of `Population::new` (population.rs): for one freshly
generated agent together with the jittered score the provider returned for
it, insert at the collision-resolved key when accepted. -/
def newStep {G : Type} (p : Population G) (agent : Agent G) (rawScore : Nat) :
    Population G :=
  if p.will_accept agent then p.insert (p.resolveCollision rawScore) agent else p

/-- `Population::new` (population.rs) with the random generation made
explicit: `draws` lists, in order, each generated agent together with the
jittered score the provider returned for it. -/
def newFromDraws {G : Type} (unique : Bool) (draws : List (Agent G × Nat)) :
    Population G :=
  draws.foldl (fun p d => newStep p d.1 d.2) (new_empty G unique)

end Population

/-- The map-mutating operations named by the spec's register invariant. -/
inductive PopOp (G : Type) where
  | ins (score : Nat) (agent : Agent G)
  | rem (score : Nat)
  | cullBelow (score : Nat)
  | cullAbove (score : Nat)
deriving DecidableEq, Repr

/-- Apply one operation to a population. -/
def applyOp {G : Type} (p : Population G) : PopOp G → Population G
  | .ins s a => p.insert s a
  | .rem s => (p.remove s).2
  | .cullBelow s => p.cull_all_below s
  | .cullAbove s => p.cull_all_above s

/-- Apply a sequence of operations, left to right. -/
def applyOps {G : Type} (p : Population G) (ops : List (PopOp G)) : Population G :=
  ops.foldl applyOp p

/-- Along a trace, every insert that the population would actually accept
targets a score not already present in the map. -/
def freshOk {G : Type} (p : Population G) : List (PopOp G) → Bool
  | [] => true
  | op :: ops =>
    (match op with
     | .ins s a => !(p.will_accept a) || !(p.contains_score s)
     | _ => true) && freshOk (applyOp p op) ops

/-- `enum SelectionType` (operations.rs). -/
inductive SelectionType where
  | RandomAny
  | HighestScore
  | LowestScore
deriving DecidableEq, Repr

/-- `struct Selection` (operations.rs).  The `f64` proportion is modelled
exactly over `ℚ`. -/
structure Selection where
  selection_type : SelectionType
  proportion : ℚ
  preferred_minimum : Nat
deriving DecidableEq, Repr

/-- `cull_agents` (operations.rs): when the computed selection count covers
the whole key list, return the population unchanged; otherwise cull at the
key found at index `cull_number` (LowestScore keeps the keys from there up,
HighestScore keeps the keys strictly below it), and RandomAny panics
(`none`).  The `keys[cull_number]` index is taken with `getD`, reached only
when `cull_number < keys.length`, where it agrees with the panicking Rust
index. -/
def cull_agents {G : Type} (p : Population G) (selection : Selection) :
    Option (Population G) :=
  let keys := p.get_scores
  let cull_number := rate_to_number p.len selection.proportion selection.preferred_minimum
  if cull_number ≥ keys.length then some p
  else
    match selection.selection_type with
    | SelectionType.LowestScore => some (p.cull_all_below (keys.getD cull_number 0))
    | SelectionType.HighestScore => some (p.cull_all_above (keys.getD cull_number 0))
    | SelectionType.RandomAny => none

/-- `HashMap` lookup (`score_cache` of fitness.rs), on an association list
from genome hash to true fitness. -/
def cacheLookup (cache : List (Nat × Nat)) (h : Nat) : Option Nat :=
  (cache.find? (fun e => e.1 == h)).map (fun e => e.2)

/-- `HashMap::insert`: bind the key to the value, replacing any previous
binding. -/
def cacheInsert (cache : List (Nat × Nat)) (h : Nat) (s : Nat) :
    List (Nat × Nat) :=
  (h, s) :: cache.filter (fun e => !(e.1 == h))

/-- `struct GeneralScoreProvider` (fitness.rs).  The host fitness function
returns `Result<Score, ScoreError>`, modelled as `Option Score` with `none`
for `Err`. -/
structure GeneralScoreProvider (G D : Type) where
  scoring_function : Agent G → D → Option Nat
  offset : Nat
  score_cache : List (Nat × Nat)

namespace GeneralScoreProvider

/-- `GeneralScoreProvider::offset_cached_score` (fitness.rs): add the jitter
draw to the cached true fitness (u64 addition, wrapping at `u64Mod`), then
shift down by the jitter bound, clamping at zero.  Indexing a hash absent
from the cache panics (`none`). -/
def offset_cached_score {G D : Type} (sp : GeneralScoreProvider G D) (hash : Nat)
    (offset : Nat) : Option Nat :=
  match cacheLookup sp.score_cache hash with
  | none => none
  | some cached =>
    let score := (cached + offset) % u64Mod
    if score ≤ sp.offset then some 0 else some (score - sp.offset)

/-- `GeneralScoreProvider::evaluate_scores` (fitness.rs): scan the
candidates in order; keep an agent whose hash is already cached; otherwise
evaluate the fitness function once, keeping and caching on success and
skipping the agent on error.  Returns the updated provider and the kept
agents. -/
def evaluate_scores {G D : Type} (sp : GeneralScoreProvider G D) :
    List (Agent G) → D → GeneralScoreProvider G D × List (Agent G)
  | [], _ => (sp, [])
  | agent :: rest, data =>
    if (cacheLookup sp.score_cache agent.hash).isSome then
      let r := evaluate_scores sp rest data
      (r.1, agent :: r.2)
    else
      match sp.scoring_function agent data with
      | some score =>
        let sp' := { sp with score_cache := cacheInsert sp.score_cache agent.hash score }
        let r := evaluate_scores sp' rest data
        (r.1, agent :: r.2)
      | none => evaluate_scores sp rest data

/-- `GeneralScoreProvider::get_score` (fitness.rs): draw the jitter offset
from `[0, offset * 2)` (panicking when that range is empty), then return the
jittered cached score on a hit; on a miss, evaluate the fitness function,
`unwrap` the result (panicking on error, modelled as `none`), cache the true
value, and return the jittered score.  Returns the updated provider with the
score. -/
def get_score {G D : Type} (sp : GeneralScoreProvider G D) (agent : Agent G)
    (data : D) (r : Nat) : Option (GeneralScoreProvider G D × Nat) :=
  let hash := agent.hash
  match genRange ((sp.offset * 2) % u64Mod) r with
  | none => none
  | some offset =>
    if (cacheLookup sp.score_cache hash).isSome then
      (sp.offset_cached_score hash offset).map (fun s => (sp, s))
    else
      match sp.scoring_function agent data with
      | none => none
      | some score =>
        let sp' := { sp with score_cache := cacheInsert sp.score_cache hash score }
        (sp'.offset_cached_score hash offset).map (fun s => (sp', s))

end GeneralScoreProvider

section Theorems

/-- One mutate-loop iteration on a list of the captured length succeeds and
preserves the length, provided that length is at least 2. -/
theorem mutateStep_some_length {G : Type} (n : Nat) (g : List G) (r1 r2 : Nat) (fr : G)
    (hn : 2 ≤ n) (hg : g.length = n) :
    ∃ g', mutateStep n g r1 r2 fr = some g' ∧ g'.length = n := by
  have hn0 : n ≠ 0 := by omega
  have hn1 : n - 1 ≠ 0 := by omega
  refine ⟨(g.eraseIdx (r1 % n)).insertIdx (r2 % (n - 1)) fr, ?_, ?_⟩
  · simp [mutateStep, genRange, hn0, hn1]
  · have h1 : r1 % n < n := Nat.mod_lt _ (by omega)
    have herase : (g.eraseIdx (r1 % n)).length = n - 1 := by
      simp [List.length_eraseIdx, hg]
      omega
    have h2 : r2 % (n - 1) ≤ (g.eraseIdx (r1 % n)).length := by
      have := Nat.mod_lt r2 (y := n - 1) (by omega)
      omega
    rw [List.length_insertIdx _ _ h2, herase]
    omega

/-- The mutate loop (any number of iterations) on genes of the captured
length succeeds and preserves the length, provided that length is at
least 2. -/
theorem mutateLoop_some_length {G : Type} (n : Nat) (hn : 2 ≤ n)
    (l : List (Fin 5)) (rand1 rand2 : Fin 5 → Nat) (fr : Fin 5 → G) :
    ∀ g : List G, g.length = n →
      ∃ g', l.foldlM (fun g i => mutateStep n g (rand1 i) (rand2 i) (fr i)) g = some g' ∧
        g'.length = n := by
  induction l with
  | nil => exact fun g hg => ⟨g, rfl, hg⟩
  | cons i t ih =>
    intro g hg
    obtain ⟨g1, hs, hl⟩ := mutateStep_some_length n g (rand1 i) (rand2 i) (fr i) hn hg
    obtain ⟨g', hs', hl'⟩ := ih g1 hl
    exact ⟨g', by simp [List.foldlM, hs, hs'], hl'⟩

/-- C3 (amended): for every Agent with genome length at least 2, `mutate`
performs its 5 remove-then-insert perturbations (the 5-fold loop in the
definition of `Agent.mutate`), returns normally with the genome length
unchanged, and stores the hash recomputed over the resulting genes.  The
original claim's bound (length ≥ 1) fails: at length 1 the second
`gen_range(0, gene_count - 1)` draw has an empty range and panics, see
`c3_mutate_length_one_panics`. -/
theorem c3_mutate_preserves_length {G : Type} (hashFn : List G → Nat)
    (rand1 rand2 : Fin 5 → Nat) (fresh : Fin 5 → G) (a : Agent G)
    (h : 2 ≤ a.genes.length) :
    ∃ b, a.mutate hashFn rand1 rand2 fresh = some b ∧
      b.genes.length = a.genes.length ∧ b.hash = hashFn b.genes := by
  obtain ⟨g', hs, hl⟩ :=
    mutateLoop_some_length a.genes.length h (List.finRange 5) rand1 rand2 fresh a.genes rfl
  exact ⟨⟨g', hashFn g'⟩, by simp [Agent.mutate, hs], hl, rfl⟩

/-- C3 witness: the amended theorem applied to a concrete length-2 agent. -/
theorem c3_mutate_preserves_length_witness :
    2 ≤ (Agent.mk [0, 1] 2 : Agent Nat).genes.length ∧
    ∃ b, (Agent.mk [0, 1] 2 : Agent Nat).mutate (fun l => l.length)
        (fun _ => 0) (fun _ => 0) (fun _ => 5) = some b ∧
      b.genes.length = (Agent.mk [0, 1] 2 : Agent Nat).genes.length ∧
      b.hash = (fun l : List Nat => l.length) b.genes :=
  ⟨by norm_num,
   c3_mutate_preserves_length (fun l => l.length) (fun _ => 0) (fun _ => 0)
     (fun _ => 5) (Agent.mk [0, 1] 2) (by norm_num)⟩

/-- C3 counterexample: on a genome of length 1 (allowed by the claim's
"length >= 1"), `mutate` terminates abnormally instead of returning with
the length unchanged: after the first removal the insert draw is
`gen_range(0, 0)`, which panics. -/
theorem c3_mutate_length_one_panics :
    (Agent.mk [7] 3 : Agent Nat).mutate (fun l => l.length)
      (fun _ => 0) (fun _ => 0) (fun _ => 5) = none := by decide

/-- C4: for parents with non-empty genomes and a crossover point drawn
uniformly from `[0, min (len p1) (len p2))`, `mate` returns a child formed
as the prefix of parent 1 up to the length-difference-shifted crossover
point concatenated with the suffix of parent 2 from its shifted crossover
point onward; the child's length equals parent 1's and its hash is
recomputed over the new sequence. -/
theorem c4_mate_child_spec {G : Type} (hashFn : List G → Nat) (p1 p2 : Agent G)
    (c : Nat) (h1 : 1 ≤ p1.genes.length) (h2 : 1 ≤ p2.genes.length)
    (hc : c < min p1.genes.length p2.genes.length) :
    ∃ child, mate hashFn p1 p2 c = some child ∧
      child.genes =
        p1.genes.take
          (if p1.genes.length > p2.genes.length then
            c + (p1.genes.length - p2.genes.length) else c) ++
        p2.genes.drop
          (if p2.genes.length > p1.genes.length then
            c + (p2.genes.length - p1.genes.length) else c) ∧
      child.genes.length = p1.genes.length ∧
      child.hash = hashFn child.genes := by
  set len1 := p1.genes.length with hlen1
  set len2 := p2.genes.length with hlen2
  have hgc : (if len1 > len2 then len2 else len1) = min len1 len2 := by
    split <;> omega
  have hne : min len1 len2 ≠ 0 := by omega
  have hmod : c % min len1 len2 = c := Nat.mod_eq_of_lt hc
  set scp := if len1 > len2 then c + (len1 - len2) else c with hscp
  set ocp := if len2 > len1 then c + (len2 - len1) else c with hocp
  refine ⟨⟨p1.genes.take scp ++ p2.genes.drop ocp,
          hashFn (p1.genes.take scp ++ p2.genes.drop ocp)⟩, ?_, rfl, ?_, rfl⟩
  · simp only [mate, crossover_some_genes, genRange, hgc, hne, if_false, hmod,
      ← hlen1, ← hlen2, ← hscp, ← hocp]
  · rw [List.length_append, List.length_take, List.length_drop]
    rw [hscp, hocp, ← hlen1, ← hlen2]
    rcases Nat.lt_or_ge len2 len1 with hlt | hge
    · rw [if_pos (by omega), if_neg (by omega)]
      omega
    · rw [if_neg (by omega)]
      rcases Nat.lt_or_ge len1 len2 with hlt' | hge'
      · rw [if_pos (by omega)]
        omega
      · rw [if_neg (by omega)]
        omega

/-- C4 witness: the theorem applied to concrete parents of lengths 3 and 2
with crossover point 1. -/
theorem c4_mate_child_spec_witness :
    (1 ≤ (Agent.mk [1, 2, 3] 9 : Agent Nat).genes.length ∧
     1 ≤ (Agent.mk [4, 5] 8 : Agent Nat).genes.length ∧
     1 < min (Agent.mk [1, 2, 3] 9 : Agent Nat).genes.length
       (Agent.mk [4, 5] 8 : Agent Nat).genes.length) ∧
    ∃ child, mate (fun l => l.length) (Agent.mk [1, 2, 3] 9 : Agent Nat)
        (Agent.mk [4, 5] 8) 1 = some child ∧
      child.genes =
        (Agent.mk [1, 2, 3] 9 : Agent Nat).genes.take
          (if (Agent.mk [1, 2, 3] 9 : Agent Nat).genes.length >
              (Agent.mk [4, 5] 8 : Agent Nat).genes.length then
            1 + ((Agent.mk [1, 2, 3] 9 : Agent Nat).genes.length -
              (Agent.mk [4, 5] 8 : Agent Nat).genes.length) else 1) ++
        (Agent.mk [4, 5] 8 : Agent Nat).genes.drop
          (if (Agent.mk [4, 5] 8 : Agent Nat).genes.length >
              (Agent.mk [1, 2, 3] 9 : Agent Nat).genes.length then
            1 + ((Agent.mk [4, 5] 8 : Agent Nat).genes.length -
              (Agent.mk [1, 2, 3] 9 : Agent Nat).genes.length) else 1) ∧
      child.genes.length = (Agent.mk [1, 2, 3] 9 : Agent Nat).genes.length ∧
      child.hash = (fun l : List Nat => l.length) child.genes :=
  ⟨⟨by norm_num, by norm_num, by norm_num⟩,
   c4_mate_child_spec (fun l => l.length) (Agent.mk [1, 2, 3] 9) (Agent.mk [4, 5] 8) 1
     (by norm_num) (by norm_num) (by norm_num)⟩

/-- C5: `rate_to_number` returns the population size when it is below the
preferred minimum, otherwise the floor of size times proportion, raised to
the preferred minimum when below it; and it takes the ten listed values on
the spec's ten argument triples. -/
theorem c5_rate_to_number_correct :
    (∀ (len : Nat) (proportion : ℚ) (preferred_minimum : Nat),
      rate_to_number len proportion preferred_minimum =
        if len < preferred_minimum then len
        else if (⌊(len : ℚ) * proportion⌋).toNat < preferred_minimum then preferred_minimum
        else (⌊(len : ℚ) * proportion⌋).toNat) ∧
    rate_to_number 20 (8/10) 0 = 16 ∧ rate_to_number 0 0 0 = 0 ∧
    rate_to_number 0 (8/10) 0 = 0 ∧ rate_to_number 20 1 0 = 20 ∧
    rate_to_number 10 (75/100) 0 = 7 ∧ rate_to_number 10 (71/100) 0 = 7 ∧
    rate_to_number 10 (79/100) 0 = 7 ∧ rate_to_number 10 (7/10) 5 = 7 ∧
    rate_to_number 10 (7/10) 8 = 8 ∧ rate_to_number 4 (5/10) 5 = 4 := by
  refine ⟨fun len proportion preferred_minimum => rfl, ?_, ?_, ?_, ?_, ?_, ?_, ?_, ?_, ?_, ?_⟩ <;>
    norm_num [rate_to_number] <;> rfl

end Theorems

/-- Keys of an association list of agents. -/
def keysOf {G : Type} (l : List (Nat × Agent G)) : List Nat :=
  l.map (fun e => e.1)

/-- Genome hashes of an association list of agents, in entry order. -/
def hashesOf {G : Type} (l : List (Nat × Agent G)) : List Nat :=
  l.map (fun e => e.2.hash)

/-- The `BTreeMap` representation invariant: keys strictly ascending. -/
def KeysOrdered {G : Type} (p : Population G) : Prop :=
  List.Pairwise (fun a b => a.1 < b.1) p.agents

instance {G : Type} (p : Population G) : Decidable (KeysOrdered p) := by
  unfold KeysOrdered; infer_instance

/-- The register is in lockstep with the map: no duplicate hashes on either
side and the same hashes on both. -/
def RegisterSync {G : Type} (p : Population G) : Prop :=
  p.register.Nodup ∧ (hashesOf p.agents).Nodup ∧
    ∀ h : Nat, h ∈ p.register ↔ h ∈ hashesOf p.agents

section PopulationLemmas

variable {G : Type}

theorem mem_btInsert {k : Nat} {v : Agent G} :
    ∀ {l : List (Nat × Agent G)} {e : Nat × Agent G},
      e ∈ Population.btInsert k v l → e = (k, v) ∨ e ∈ l := by
  intro l
  induction l with
  | nil => intro e he; simpa [Population.btInsert] using he
  | cons hd t ih =>
    intro e he
    by_cases h1 : k < hd.1
    · simpa [Population.btInsert, h1] using he
    · by_cases h2 : k = hd.1
      · rcases (by simpa [Population.btInsert, h1, h2] using he : e = (k, v) ∨ e ∈ t) with h | h
        · exact Or.inl h
        · exact Or.inr (List.mem_cons_of_mem _ h)
      · rcases (by simpa [Population.btInsert, h1, h2] using he : e = hd ∨ e ∈ Population.btInsert k v t) with h | h
        · exact Or.inr (by simp [h])
        · rcases ih h with h' | h'
          · exact Or.inl h'
          · exact Or.inr (List.mem_cons_of_mem _ h')

theorem btInsert_perm {k : Nat} {v : Agent G} :
    ∀ {l : List (Nat × Agent G)}, k ∉ keysOf l →
      List.Perm (Population.btInsert k v l) ((k, v) :: l) := by
  intro l
  induction l with
  | nil => intro _; simp [Population.btInsert]
  | cons hd t ih =>
    intro hk
    have hk1 : k ≠ hd.1 := by
      intro h; exact hk (by simp [keysOf, h])
    have hkt : k ∉ keysOf t := by
      intro h; exact hk (by simp [keysOf] at h ⊢; exact Or.inr h)
    by_cases h1 : k < hd.1
    · simp [Population.btInsert, h1]
    · rw [Population.btInsert]
      rw [if_neg h1, if_neg hk1]
      exact (List.Perm.cons hd (ih hkt)).trans (List.Perm.swap _ _ _)

theorem btInsert_keysOrdered {k : Nat} {v : Agent G} :
    ∀ {l : List (Nat × Agent G)},
      List.Pairwise (fun a b => a.1 < b.1) l →
      List.Pairwise (fun a b => a.1 < b.1) (Population.btInsert k v l) := by
  intro l
  induction l with
  | nil => intro _; simp [Population.btInsert]
  | cons hd t ih =>
    intro hp
    rw [List.pairwise_cons] at hp
    obtain ⟨hhd, ht⟩ := hp
    by_cases h1 : k < hd.1
    · rw [Population.btInsert, if_pos h1]
      exact List.pairwise_cons.2 ⟨by
        intro e he
        rcases List.mem_cons.1 he with h | h
        · simp [h, h1]
        · exact lt_trans h1 (hhd e h), List.pairwise_cons.2 ⟨hhd, ht⟩⟩
    · by_cases h2 : k = hd.1
      · rw [Population.btInsert, if_neg h1, if_pos h2]
        exact List.pairwise_cons.2 ⟨by intro e he; rw [h2]; exact hhd e he, ht⟩
      · rw [Population.btInsert, if_neg h1, if_neg h2]
        refine List.pairwise_cons.2 ⟨?_, ih ht⟩
        intro e he
        rcases mem_btInsert he with h | h
        · simp [h]; omega
        · exact hhd e h

theorem btInsert_length_of_mem {k : Nat} {v : Agent G} :
    ∀ {l : List (Nat × Agent G)},
      List.Pairwise (fun a b => a.1 < b.1) l → k ∈ keysOf l →
      (Population.btInsert k v l).length = l.length := by
  intro l
  induction l with
  | nil => intro _ h; simp [keysOf] at h
  | cons hd t ih =>
    intro hp hk
    rw [List.pairwise_cons] at hp
    obtain ⟨hhd, ht⟩ := hp
    rcases (by simpa [keysOf] using hk : k = hd.1 ∨ k ∈ keysOf t) with h | h
    · rw [Population.btInsert, if_neg (by omega), if_pos h]
      simp
    · have hgt : hd.1 < k := by
        simp only [keysOf, List.mem_map] at h
        obtain ⟨e, he, rfl⟩ := h
        exact hhd e he
      rw [Population.btInsert, if_neg (by omega), if_neg (by omega)]
      simp [ih ht h]

theorem btInsert_find_self {k : Nat} {v : Agent G} :
    ∀ {l : List (Nat × Agent G)},
      (Population.btInsert k v l).find? (fun e => e.1 == k) = some (k, v) := by
  intro l
  induction l with
  | nil => simp [Population.btInsert]
  | cons hd t ih =>
    by_cases h1 : k < hd.1
    · simp [Population.btInsert, h1]
    · by_cases h2 : k = hd.1
      · simp [Population.btInsert, h1, h2]
      · have : (hd.1 == k) = false := by
          simp; omega
        simp [Population.btInsert, h1, h2, List.find?, this, ih]

theorem contains_score_iff {p : Population G} {s : Nat} :
    p.contains_score s = true ↔ s ∈ keysOf p.agents := by
  simp only [Population.contains_score, List.any_eq_true, keysOf, List.mem_map]
  constructor
  · rintro ⟨e, he, hs⟩
    exact ⟨e, he, by simpa using hs⟩
  · rintro ⟨e, he, hs⟩
    exact ⟨e, he, by simpa using hs⟩

theorem resolveCollision_le (p : Population G) : ∀ s : Nat, p.resolveCollision s ≤ s := by
  intro s
  induction s with
  | zero => simp [Population.resolveCollision]
  | succ n ih =>
    rw [Population.resolveCollision]
    split
    · exact le_trans ih (Nat.le_succ n)
    · exact le_refl _

theorem resolveCollision_free_or_zero (p : Population G) (s : Nat) :
    p.contains_score (p.resolveCollision s) = false ∨ p.resolveCollision s = 0 := by
  induction s with
  | zero => exact Or.inr rfl
  | succ n ih =>
    rw [Population.resolveCollision]
    split
    · exact ih
    · rename_i h
      exact Or.inl (by simpa using h)

theorem resolveCollision_occupied_above (p : Population G) :
    ∀ s j : Nat, p.resolveCollision s < j → j ≤ s → p.contains_score j = true := by
  intro s
  induction s with
  | zero =>
    intro j h1 h2
    simp only [Population.resolveCollision] at h1
    omega
  | succ n ih =>
    intro j h1 h2
    rw [Population.resolveCollision] at h1
    by_cases hc : p.contains_score (n + 1) = true
    · rw [if_pos hc] at h1
      rcases Nat.lt_or_ge j (n + 1) with hj | hj
      · exact ih j h1 (by omega)
      · have hj' : j = n + 1 := by omega
        rw [hj']; exact hc
    · rw [if_neg (by simpa using hc)] at h1
      omega

theorem foldlInsert_nodup :
    ∀ (l : List (Nat × Agent G)) (acc : List Nat), acc.Nodup →
      (l.foldl (fun r e => r.insert e.2.hash) acc).Nodup := by
  intro l
  induction l with
  | nil => intro acc h; exact h
  | cons hd t ih => intro acc h; exact ih _ h.insert

theorem foldlInsert_mem :
    ∀ (l : List (Nat × Agent G)) (acc : List Nat) (h : Nat),
      h ∈ l.foldl (fun r e => r.insert e.2.hash) acc ↔ h ∈ acc ∨ h ∈ hashesOf l := by
  intro l
  induction l with
  | nil => intro acc h; simp [hashesOf]
  | cons hd t ih =>
    intro acc h
    rw [List.foldl_cons, ih, List.mem_insert_iff]
    simp only [hashesOf, List.map_cons, List.mem_cons]
    tauto

theorem rebuiltRegister_nodup (l : List (Nat × Agent G)) :
    (Population.rebuiltRegister l).Nodup :=
  foldlInsert_nodup l [] List.nodup_nil

theorem mem_rebuiltRegister (l : List (Nat × Agent G)) (h : Nat) :
    h ∈ Population.rebuiltRegister l ↔ h ∈ hashesOf l := by
  rw [Population.rebuiltRegister, foldlInsert_mem]
  simp

theorem keysOrdered_keys_nodup {p : Population G} (h : KeysOrdered p) :
    (keysOf p.agents).Nodup := by
  have hp : List.Pairwise (fun a b => a < b) (keysOf p.agents) :=
    List.pairwise_map.2 h
  exact hp.imp Nat.ne_of_lt

/-- `Population::insert` preserves the lockstep invariant provided any
accepted insert targets a fresh score. -/
theorem insert_registerSync {p : Population G} (hu : p.unique_agents = true)
    (hs : RegisterSync p) {s : Nat} {a : Agent G}
    (hfresh : p.will_accept a = true → p.contains_score s = false) :
    RegisterSync (p.insert s a) := by
  obtain ⟨hreg, hhash, hiff⟩ := hs
  rw [Population.insert, if_pos hu]
  by_cases hc : p.register.contains a.hash
  · rw [if_pos hc]; exact ⟨hreg, hhash, hiff⟩
  · rw [if_neg hc]
    have hmemreg : a.hash ∉ p.register := by
      simpa using hc
    have hacc : p.will_accept a = true := by
      simp [Population.will_accept, hu, hmemreg]
    have hanotin : a.hash ∉ hashesOf p.agents := fun hm => hmemreg ((hiff a.hash).2 hm)
    have hsk : s ∉ keysOf p.agents := by
      intro hm
      have := contains_score_iff.2 hm
      rw [hfresh hacc] at this
      exact Bool.false_ne_true this
    have hregins : p.register.insert a.hash = a.hash :: p.register :=
      List.insert_of_not_mem hmemreg
    have hperm : List.Perm (Population.btInsert s a p.agents) ((s, a) :: p.agents) :=
      btInsert_perm hsk
    have hpermh : List.Perm (hashesOf (Population.btInsert s a p.agents))
        (a.hash :: hashesOf p.agents) := by
      simpa [hashesOf] using hperm.map (fun e => e.2.hash)
    refine ⟨?_, ?_, ?_⟩
    · show (p.register.insert a.hash).Nodup
      rw [hregins]
      exact List.nodup_cons.2 ⟨hmemreg, hreg⟩
    · show (hashesOf (Population.btInsert s a p.agents)).Nodup
      exact hpermh.nodup_iff.2 (List.nodup_cons.2 ⟨hanotin, hhash⟩)
    · intro h
      show h ∈ p.register.insert a.hash ↔ h ∈ hashesOf (Population.btInsert s a p.agents)
      rw [hregins, List.mem_cons, hpermh.mem_iff, List.mem_cons, hiff h]

/-- `Population::remove` preserves the lockstep invariant. -/
theorem remove_registerSync {p : Population G} (hu : p.unique_agents = true)
    (hord : KeysOrdered p) (hs : RegisterSync p) (s : Nat) :
    RegisterSync (p.remove s).2 := by
  obtain ⟨hreg, hhash, hiff⟩ := hs
  rcases hfind : p.agents.find? (fun e => e.1 == s) with _ | e
  · rw [Population.remove, hfind]
    exact ⟨hreg, hhash, hiff⟩
  · rw [Population.remove, hfind]
    have hemem : e ∈ p.agents := List.mem_of_find?_eq_some hfind
    have hekey : e.1 = s := by
      have := List.find?_some hfind
      simpa using this
    have hkeysnd : (p.agents.map (fun x => x.1)).Nodup := by
      simpa [keysOf] using keysOrdered_keys_nodup hord
    have hhash' : (p.agents.map (fun x => x.2.hash)).Nodup := by
      simpa [hashesOf] using hhash
    refine ⟨?_, ?_, ?_⟩
    · show (if p.unique_agents then p.register.erase e.2.hash else p.register).Nodup
      rw [if_pos hu]
      exact hreg.erase _
    · show (hashesOf (p.agents.filter (fun e' => !(e'.1 == s)))).Nodup
      exact List.Nodup.sublist ((List.filter_sublist _).map _) hhash
    · intro h
      show h ∈ (if p.unique_agents then p.register.erase e.2.hash else p.register) ↔
        h ∈ hashesOf (p.agents.filter (fun e' => !(e'.1 == s)))
      rw [if_pos hu, hreg.mem_erase_iff]
      simp only [hashesOf, List.mem_map, List.mem_filter]
      constructor
      · rintro ⟨hne, hmem⟩
        obtain ⟨f, hf, rfl⟩ := (by simpa [hashesOf] using (hiff h).1 hmem :
          ∃ f ∈ p.agents, f.2.hash = h)
        refine ⟨f, ⟨hf, ?_⟩, rfl⟩
        simp only [Bool.not_eq_true', beq_eq_false_iff_ne]
        intro hfk'
        have hfe : f = e := List.inj_on_of_nodup_map hkeysnd hf hemem (by rw [hfk', hekey])
        exact hne (by rw [hfe])
      · rintro ⟨f, ⟨hf, hfk⟩, rfl⟩
        have hfk' : f.1 ≠ s := by simpa using hfk
        refine ⟨?_, (hiff f.2.hash).2 (by exact List.mem_map.2 ⟨f, hf, rfl⟩)⟩
        intro hhe
        have hfe : f = e := List.inj_on_of_nodup_map hhash' hf hemem hhe
        exact hfk' (by rw [hfe, hekey])

/-- `Population::cull_all_below` preserves the lockstep invariant. -/
theorem cull_below_registerSync {p : Population G} (hu : p.unique_agents = true)
    (hs : RegisterSync p) (s : Nat) : RegisterSync (p.cull_all_below s) := by
  obtain ⟨_, hhash, _⟩ := hs
  rw [Population.cull_all_below]
  refine ⟨?_, ?_, ?_⟩
  · show (if p.unique_agents then _ else p.register).Nodup
    rw [if_pos hu]
    exact rebuiltRegister_nodup _
  · exact List.Nodup.sublist ((List.filter_sublist _).map _) hhash
  · intro h
    show h ∈ (if p.unique_agents then _ else p.register) ↔ _
    rw [if_pos hu]
    exact mem_rebuiltRegister _ h

/-- `Population::cull_all_above` preserves the lockstep invariant. -/
theorem cull_above_registerSync {p : Population G} (hu : p.unique_agents = true)
    (hs : RegisterSync p) (s : Nat) : RegisterSync (p.cull_all_above s) := by
  obtain ⟨_, hhash, _⟩ := hs
  rw [Population.cull_all_above]
  refine ⟨?_, ?_, ?_⟩
  · show (if p.unique_agents then _ else p.register).Nodup
    rw [if_pos hu]
    exact rebuiltRegister_nodup _
  · exact List.Nodup.sublist ((List.filter_sublist _).map _) hhash
  · intro h
    show h ∈ (if p.unique_agents then _ else p.register) ↔ _
    rw [if_pos hu]
    exact mem_rebuiltRegister _ h

theorem applyOp_unique (p : Population G) (op : PopOp G) :
    (applyOp p op).unique_agents = p.unique_agents := by
  cases op with
  | ins s a =>
    simp only [applyOp, Population.insert]
    split_ifs <;> rfl
  | rem s =>
    rcases hfind : p.agents.find? (fun e => e.1 == s) with _ | e <;>
      simp only [applyOp, Population.remove, hfind]
  | cullBelow s => rfl
  | cullAbove s => rfl

theorem applyOp_keysOrdered {p : Population G} (h : KeysOrdered p) (op : PopOp G) :
    KeysOrdered (applyOp p op) := by
  cases op with
  | ins s a =>
    simp only [applyOp, Population.insert]
    split_ifs
    · exact h
    · exact btInsert_keysOrdered h
    · exact btInsert_keysOrdered h
  | rem s =>
    rcases hfind : p.agents.find? (fun e => e.1 == s) with _ | e <;>
      simp only [applyOp, Population.remove, hfind]
    · exact h
    · exact List.Pairwise.sublist (List.filter_sublist _) h
  | cullBelow s => exact List.Pairwise.sublist (List.filter_sublist _) h
  | cullAbove s => exact List.Pairwise.sublist (List.filter_sublist _) h

theorem applyOp_registerSync {p : Population G} (hu : p.unique_agents = true)
    (hord : KeysOrdered p) (hs : RegisterSync p) :
    ∀ op : PopOp G,
      (match op with
       | .ins s a => p.will_accept a = true → p.contains_score s = false
       | _ => True) →
      RegisterSync (applyOp p op) := by
  intro op hf
  cases op with
  | ins s a => exact insert_registerSync hu hs hf
  | rem s => exact remove_registerSync hu hord hs s
  | cullBelow s => exact cull_below_registerSync hu hs s
  | cullAbove s => exact cull_above_registerSync hu hs s

theorem applyOps_registerSync :
    ∀ (ops : List (PopOp G)) (p : Population G), p.unique_agents = true →
      KeysOrdered p → RegisterSync p → freshOk p ops = true →
      RegisterSync (applyOps p ops) := by
  intro ops
  induction ops with
  | nil => intro p _ _ hs _; exact hs
  | cons op t ih =>
    intro p hu hord hs hok
    have step : RegisterSync (applyOp p op) ∧ freshOk (applyOp p op) t = true := by
      cases op with
      | ins s a =>
        replace hok : ((!(p.will_accept a) || !(p.contains_score s)) &&
            freshOk (applyOp p (PopOp.ins s a)) t) = true := hok
        rw [Bool.and_eq_true] at hok
        refine ⟨insert_registerSync hu hs ?_, hok.2⟩
        intro hacc
        have h1 := hok.1
        simp only [hacc, Bool.not_true, Bool.false_or] at h1
        simpa using h1
      | rem s =>
        replace hok : (true && freshOk (applyOp p (PopOp.rem s)) t) = true := hok
        rw [Bool.and_eq_true] at hok
        exact ⟨remove_registerSync hu hord hs s, hok.2⟩
      | cullBelow s =>
        replace hok : (true && freshOk (applyOp p (PopOp.cullBelow s)) t) = true := hok
        rw [Bool.and_eq_true] at hok
        exact ⟨cull_below_registerSync hu hs s, hok.2⟩
      | cullAbove s =>
        replace hok : (true && freshOk (applyOp p (PopOp.cullAbove s)) t) = true := hok
        rw [Bool.and_eq_true] at hok
        exact ⟨cull_above_registerSync hu hs s, hok.2⟩
    exact ih (applyOp p op) (by rw [applyOp_unique]; exact hu)
      (applyOp_keysOrdered hord op) step.1 step.2

theorem registerSync_length {p : Population G} (h : RegisterSync p) :
    p.register.length = p.agents.length := by
  obtain ⟨h1, h2, h3⟩ := h
  have hset : p.register.toFinset = (hashesOf p.agents).toFinset := by
    ext x
    simp only [List.mem_toFinset]
    exact h3 x
  have l1 := List.toFinset_card_of_nodup h1
  have l2 := List.toFinset_card_of_nodup h2
  have hlen : p.register.length = (hashesOf p.agents).length := by
    rw [← l1, ← l2, hset]
  rw [hlen, hashesOf, List.length_map]

end PopulationLemmas

section ClaimC1

/-- C1 (amended): for a Population with uniqueness enabled built up from the
empty population, after any sequence of insert, remove, cull_all_below and
cull_all_above operations in which every insert that the population would
accept targets a score key not already present in the map, the number of
entries in the score-to-agent map equals the number of genome hashes in the
register.  The freshness proviso is forced: an accepted insert at an
occupied score key overwrites the map entry while still growing the
register, see `c1_register_lockstep_cx`. -/
theorem c1_register_lockstep {G : Type} (ops : List (PopOp G))
    (h : freshOk (Population.new_empty G true) ops = true) :
    (applyOps (Population.new_empty G true) ops).agents.length =
      (applyOps (Population.new_empty G true) ops).register.length := by
  refine (registerSync_length (applyOps_registerSync ops _ rfl ?_ ?_ h)).symm
  · exact List.Pairwise.nil
  · exact ⟨List.nodup_nil, List.nodup_nil, by simp [Population.new_empty, hashesOf]⟩

/-- C1 witness: the amended theorem applied to a concrete trace of one
insert per fresh key, a remove and a cull. -/
theorem c1_register_lockstep_witness :
    freshOk (Population.new_empty Nat true)
      [PopOp.ins 5 (Agent.mk [1] 11), PopOp.ins 3 (Agent.mk [2] 12),
       PopOp.rem 5, PopOp.cullBelow 1] = true ∧
    (applyOps (Population.new_empty Nat true)
      [PopOp.ins 5 (Agent.mk [1] 11), PopOp.ins 3 (Agent.mk [2] 12),
       PopOp.rem 5, PopOp.cullBelow 1]).agents.length =
    (applyOps (Population.new_empty Nat true)
      [PopOp.ins 5 (Agent.mk [1] 11), PopOp.ins 3 (Agent.mk [2] 12),
       PopOp.rem 5, PopOp.cullBelow 1]).register.length :=
  ⟨by decide,
   c1_register_lockstep
     [PopOp.ins 5 (Agent.mk [1] 11), PopOp.ins 3 (Agent.mk [2] 12),
      PopOp.rem 5, PopOp.cullBelow 1] (by decide)⟩

/-- C1 counterexample: with uniqueness enabled, inserting two agents with
distinct genome hashes at the same score key leaves one map entry but two
registered hashes, so the claimed invariant fails for this insert
sequence. -/
theorem c1_register_lockstep_cx :
    ¬ ((applyOps (Population.new_empty Nat true)
         [PopOp.ins 5 (Agent.mk [1] 1), PopOp.ins 5 (Agent.mk [2] 2)]).agents.length =
       (applyOps (Population.new_empty Nat true)
         [PopOp.ins 5 (Agent.mk [1] 1), PopOp.ins 5 (Agent.mk [2] 2)]).register.length) := by
  decide

end ClaimC1

section ClaimC6C8

/-- C6: `cull_all_below k` retains exactly the entries with key at least
`k`, `cull_all_above k` retains exactly the entries with key strictly below
`k`; hence on two independent copies of the same Population the two
retained key sets partition the original key set at `k`, with no overlap
and no gap. -/
theorem c6_cull_partition {G : Type} (p : Population G) (k s : Nat) :
    (s ∈ (p.cull_all_below k).keys ↔ s ∈ p.keys ∧ k ≤ s) ∧
    (s ∈ (p.cull_all_above k).keys ↔ s ∈ p.keys ∧ s < k) ∧
    (s ∈ p.keys ↔ s ∈ (p.cull_all_below k).keys ∨ s ∈ (p.cull_all_above k).keys) ∧
    ¬(s ∈ (p.cull_all_below k).keys ∧ s ∈ (p.cull_all_above k).keys) := by
  have hb : s ∈ (p.cull_all_below k).keys ↔ s ∈ p.keys ∧ k ≤ s := by
    simp only [Population.keys, Population.cull_all_below, List.mem_map, List.mem_filter]
    constructor
    · rintro ⟨e, ⟨he, hk⟩, rfl⟩
      exact ⟨⟨e, he, rfl⟩, by simpa using hk⟩
    · rintro ⟨⟨e, he, rfl⟩, hk⟩
      exact ⟨e, ⟨he, by simpa using hk⟩, rfl⟩
  have ha : s ∈ (p.cull_all_above k).keys ↔ s ∈ p.keys ∧ s < k := by
    simp only [Population.keys, Population.cull_all_above, List.mem_map, List.mem_filter]
    constructor
    · rintro ⟨e, ⟨he, hk⟩, rfl⟩
      exact ⟨⟨e, he, rfl⟩, by simpa using hk⟩
    · rintro ⟨⟨e, he, rfl⟩, hk⟩
      exact ⟨e, ⟨he, by simpa using hk⟩, rfl⟩
  refine ⟨hb, ha, ?_, ?_⟩
  · rw [hb, ha]
    constructor
    · intro h
      rcases Nat.lt_or_ge s k with h' | h'
      · exact Or.inr ⟨h, h'⟩
      · exact Or.inl ⟨h, h'⟩
    · rintro (⟨h, _⟩ | ⟨h, _⟩) <;> exact h
  · rw [hb, ha]
    rintro ⟨⟨_, h1⟩, ⟨_, h2⟩⟩
    omega

/-- C8: in `Population::new`, for a freshly generated agent the population
accepts, the jittered score key is decremented while occupied (every key
between the final key and the drawn key exclusive-inclusive is occupied),
stopping at the first free key or at zero; and when it reaches zero while
zero is still occupied, the insert proceeds at key 0 anyway, silently
overwriting the existing zero-keyed entry (the map keeps its size and key 0
now holds the new agent). -/
theorem c8_new_collision_policy {G : Type} (p : Population G) (a : Agent G) (s : Nat)
    (hacc : p.will_accept a = true) (hord : KeysOrdered p) :
    Population.newStep p a s = p.insert (p.resolveCollision s) a ∧
    (p.contains_score (p.resolveCollision s) = false ∨ p.resolveCollision s = 0) ∧
    p.resolveCollision s ≤ s ∧
    (∀ j, p.resolveCollision s < j → j ≤ s → p.contains_score j = true) ∧
    (p.resolveCollision s = 0 → p.contains_score 0 = true →
      (p.insert 0 a).get 0 = some a ∧ (p.insert 0 a).len = p.len) := by
  refine ⟨by rw [Population.newStep, if_pos hacc], resolveCollision_free_or_zero p s,
    resolveCollision_le p s, fun j h1 h2 => resolveCollision_occupied_above p s j h1 h2, ?_⟩
  intro _ hc0
  have h0mem : (0 : Nat) ∈ keysOf p.agents := contains_score_iff.1 hc0
  have hins : (p.insert 0 a).agents = Population.btInsert 0 a p.agents := by
    rw [Population.insert]
    by_cases hu : p.unique_agents = true
    · rw [if_pos hu]
      by_cases hcreg : p.register.contains a.hash
      · exfalso
        rw [Population.will_accept, if_pos hu] at hacc
        simp only [Bool.not_eq_true'] at hacc
        rw [hacc] at hcreg
        exact Bool.false_ne_true hcreg
      · rw [if_neg hcreg]
    · rw [if_neg hu]
  constructor
  · rw [Population.get, hins, btInsert_find_self]
    rfl
  · rw [Population.len, Population.len, hins, btInsert_length_of_mem hord h0mem]

/-- C8 witness: a concrete population occupying keys 0, 1 and 2 with a
fresh agent whose jittered key 2 collides all the way down to the occupied
key 0, where the old entry is overwritten. -/
theorem c8_new_collision_policy_witness :
    (Population.mk [(0, Agent.mk [0] 10), (1, Agent.mk [1] 11), (2, Agent.mk [2] 12)]
        [] false : Population Nat).will_accept (Agent.mk [9] 19) = true ∧
    KeysOrdered (Population.mk [(0, Agent.mk [0] 10), (1, Agent.mk [1] 11),
        (2, Agent.mk [2] 12)] [] false : Population Nat) ∧
    ((Population.mk [(0, Agent.mk [0] 10), (1, Agent.mk [1] 11), (2, Agent.mk [2] 12)]
        [] false : Population Nat).resolveCollision 2 = 0 →
      (Population.mk [(0, Agent.mk [0] 10), (1, Agent.mk [1] 11), (2, Agent.mk [2] 12)]
        [] false : Population Nat).contains_score 0 = true →
      ((Population.mk [(0, Agent.mk [0] 10), (1, Agent.mk [1] 11), (2, Agent.mk [2] 12)]
          [] false : Population Nat).insert 0 (Agent.mk [9] 19)).get 0 =
        some (Agent.mk [9] 19) ∧
      ((Population.mk [(0, Agent.mk [0] 10), (1, Agent.mk [1] 11), (2, Agent.mk [2] 12)]
          [] false : Population Nat).insert 0 (Agent.mk [9] 19)).len =
        (Population.mk [(0, Agent.mk [0] 10), (1, Agent.mk [1] 11), (2, Agent.mk [2] 12)]
          [] false : Population Nat).len) :=
  ⟨by decide, by decide,
   (c8_new_collision_policy
     (Population.mk [(0, Agent.mk [0] 10), (1, Agent.mk [1] 11), (2, Agent.mk [2] 12)]
       [] false) (Agent.mk [9] 19) 2 (by decide) (by decide)).2.2.2.2⟩

end ClaimC6C8

section ClaimC9C10

/-- C10: whenever the computed selection count is at least the number of
entries, a Cull operation returns the Population completely unchanged for
every selection strategy, including RandomAny; no entries are removed, the
register is untouched, and no abnormal termination occurs. -/
theorem c10_cull_count_covers_population {G : Type} (p : Population G)
    (selection : Selection)
    (h : p.len ≤ rate_to_number p.len selection.proportion selection.preferred_minimum) :
    cull_agents p selection = some p := by
  have hk : p.get_scores.length = p.len := by
    simp [Population.get_scores, Population.keys, Population.len]
  have h' : rate_to_number p.len selection.proportion selection.preferred_minimum ≥
      p.get_scores.length := by
    rw [hk]; exact h
  simp only [cull_agents]
  rw [if_pos h']

/-- C10 witness: the theorem applied to a concrete two-entry population
with a RandomAny selection whose proportion 1 makes the count cover the
whole population. -/
theorem c10_cull_count_covers_population_witness :
    (Population.mk [(0, Agent.mk [0] 20), (1, Agent.mk [1] 21)] [] false :
        Population Nat).len ≤
      rate_to_number (Population.mk [(0, Agent.mk [0] 20), (1, Agent.mk [1] 21)] [] false :
        Population Nat).len (Selection.mk SelectionType.RandomAny 1 0).proportion
        (Selection.mk SelectionType.RandomAny 1 0).preferred_minimum ∧
    cull_agents (Population.mk [(0, Agent.mk [0] 20), (1, Agent.mk [1] 21)] [] false :
        Population Nat) (Selection.mk SelectionType.RandomAny 1 0) =
      some (Population.mk [(0, Agent.mk [0] 20), (1, Agent.mk [1] 21)] [] false) := by
  have hle : (Population.mk [(0, Agent.mk [0] 20), (1, Agent.mk [1] 21)] [] false :
      Population Nat).len ≤
      rate_to_number (Population.mk [(0, Agent.mk [0] 20), (1, Agent.mk [1] 21)] [] false :
        Population Nat).len (Selection.mk SelectionType.RandomAny 1 0).proportion
        (Selection.mk SelectionType.RandomAny 1 0).preferred_minimum := by
    norm_num [rate_to_number, Population.len]
  exact ⟨hle, c10_cull_count_covers_population _ _ hle⟩

/-- C9 (amended): a Cull operation with RandomAny selection terminates
abnormally whenever the computed selection count is below the population
size (otherwise it returns the population unchanged before reaching the
dispatch, see `c9_fatal_contract_violations_cx`), and `get_random_score`
on an empty Population always terminates abnormally. -/
theorem c9_fatal_contract_violations :
    (∀ (G : Type) (p : Population G) (selection : Selection),
      selection.selection_type = SelectionType.RandomAny →
      rate_to_number p.len selection.proportion selection.preferred_minimum < p.len →
      cull_agents p selection = none) ∧
    (∀ (G : Type) (p : Population G) (r : Nat),
      p.len = 0 → p.get_random_score r = none) := by
  constructor
  · intro G p selection hsel hlt
    have hk : p.get_scores.length = p.len := by
      simp [Population.get_scores, Population.keys, Population.len]
    have h' : ¬ (rate_to_number p.len selection.proportion selection.preferred_minimum ≥
        p.get_scores.length) := by
      rw [hk]; omega
    simp only [cull_agents]
    rw [if_neg h', hsel]
  · intro G p r h
    simp [Population.get_random_score, h, genRange]

/-- C9 witness: the amended theorem applied to a concrete two-entry
population with a half-proportion RandomAny cull, and to the empty
population for the random-score index. -/
theorem c9_fatal_contract_violations_witness :
    ((Selection.mk SelectionType.RandomAny (1/2) 0).selection_type =
        SelectionType.RandomAny ∧
      rate_to_number (Population.mk [(0, Agent.mk [0] 30), (3, Agent.mk [1] 31)] [] false :
          Population Nat).len (Selection.mk SelectionType.RandomAny (1/2) 0).proportion
          (Selection.mk SelectionType.RandomAny (1/2) 0).preferred_minimum <
        (Population.mk [(0, Agent.mk [0] 30), (3, Agent.mk [1] 31)] [] false :
          Population Nat).len ∧
      cull_agents (Population.mk [(0, Agent.mk [0] 30), (3, Agent.mk [1] 31)] [] false :
          Population Nat) (Selection.mk SelectionType.RandomAny (1/2) 0) = none) ∧
    ((Population.new_empty Nat false).len = 0 ∧
      (Population.new_empty Nat false).get_random_score 7 = none) := by
  have h1 : (Selection.mk SelectionType.RandomAny (1/2) 0).selection_type =
      SelectionType.RandomAny := rfl
  have h2 : rate_to_number (Population.mk [(0, Agent.mk [0] 30), (3, Agent.mk [1] 31)]
        [] false : Population Nat).len
        (Selection.mk SelectionType.RandomAny (1/2) 0).proportion
        (Selection.mk SelectionType.RandomAny (1/2) 0).preferred_minimum <
      (Population.mk [(0, Agent.mk [0] 30), (3, Agent.mk [1] 31)] [] false :
        Population Nat).len := by
    norm_num [rate_to_number, Population.len]
  have h3 : (Population.new_empty Nat false).len = 0 := rfl
  exact ⟨⟨h1, h2, c9_fatal_contract_violations.1 Nat _ _ h1 h2⟩,
    ⟨h3, c9_fatal_contract_violations.2 Nat _ 7 h3⟩⟩

/-- C9 counterexample: a Cull with RandomAny selection does not terminate
abnormally on every Population: on a one-entry population with proportion
1 the computed count covers the population and the call returns it
unchanged. -/
theorem c9_fatal_contract_violations_cx :
    cull_agents (Population.mk [(4, Agent.mk [1] 41)] [] false : Population Nat)
      (Selection.mk SelectionType.RandomAny 1 1) =
      some (Population.mk [(4, Agent.mk [1] 41)] [] false) := by
  norm_num [cull_agents, rate_to_number, Population.len, Population.get_scores,
    Population.keys]

end ClaimC9C10

section ScoreProviderLemmas

variable {G D : Type}

theorem find_filter_ne (c : List (Nat × Nat)) (h x : Nat) (hne : x ≠ h) :
    (c.filter (fun e => !(e.1 == h))).find? (fun e => e.1 == x) =
      c.find? (fun e => e.1 == x) := by
  induction c with
  | nil => rfl
  | cons e t ih =>
    by_cases he : e.1 = h
    · have h1 : (e.1 == h) = true := by simpa using he
      have h2 : (e.1 == x) = false := by
        simp only [beq_eq_false_iff_ne]
        rw [he]; exact fun hx => hne hx.symm
      simp only [List.filter_cons, h1, Bool.not_true, List.find?_cons, h2, if_neg]
      exact ih
    · have h1 : (e.1 == h) = false := by simpa using he
      by_cases hx : e.1 = x
      · have h2 : (e.1 == x) = true := by simpa using hx
        simp [List.filter_cons, h1, List.find?_cons, h2]
      · have h2 : (e.1 == x) = false := by simpa using hx
        simp only [List.filter_cons, h1, Bool.not_false, if_pos, List.find?_cons, h2]
        exact ih

theorem cacheLookup_cacheInsert_self (c : List (Nat × Nat)) (h s : Nat) :
    cacheLookup (cacheInsert c h s) h = some s := by
  simp [cacheLookup, cacheInsert]

theorem cacheLookup_cacheInsert_ne (c : List (Nat × Nat)) (h x s : Nat) (hne : x ≠ h) :
    cacheLookup (cacheInsert c h s) x = cacheLookup c x := by
  have hbeq : (h == x) = false := by
    simp only [beq_eq_false_iff_ne]
    exact fun hx => hne hx.symm
  simp only [cacheLookup, cacheInsert, List.find?_cons, hbeq, if_neg]
  rw [find_filter_ne c h x hne]

theorem cacheLookup_cacheInsert_isSome (c : List (Nat × Nat)) (h x s : Nat)
    (hx : (cacheLookup c x).isSome) :
    (cacheLookup (cacheInsert c h s) x).isSome := by
  by_cases he : x = h
  · subst he
    rw [cacheLookup_cacheInsert_self]
    rfl
  · rw [cacheLookup_cacheInsert_ne c h x s he]
    exact hx

/-- In `evaluate_scores`, an uncached agent all of whose same-hashed
occurrences fail fitness evaluation is neither kept nor cached. -/
theorem evaluate_scores_excludes :
    ∀ (agents : List (Agent G)) (sp : GeneralScoreProvider G D) (data : D) (a : Agent G),
      cacheLookup sp.score_cache a.hash = none →
      (∀ b ∈ agents, b.hash = a.hash → sp.scoring_function b data = none) →
      a ∉ (sp.evaluate_scores agents data).2 ∧
        cacheLookup (sp.evaluate_scores agents data).1.score_cache a.hash = none := by
  intro agents
  induction agents with
  | nil =>
    intro sp data a hl _
    exact ⟨List.not_mem_nil a, hl⟩
  | cons hd t ih =>
    intro sp data a hl herr
    by_cases hcache : (cacheLookup sp.score_cache hd.hash).isSome
    · have hres : sp.evaluate_scores (hd :: t) data =
          ((sp.evaluate_scores t data).1, hd :: (sp.evaluate_scores t data).2) := by
        rw [GeneralScoreProvider.evaluate_scores, if_pos hcache]
      have hne : hd.hash ≠ a.hash := by
        intro he
        rw [he, hl] at hcache
        simp at hcache
      obtain ⟨ih1, ih2⟩ := ih sp data a hl
        (fun b hb hh => herr b (List.mem_cons_of_mem _ hb) hh)
      rw [hres]
      refine ⟨?_, ih2⟩
      intro hmem
      rcases List.mem_cons.1 hmem with he | he
      · exact hne (by rw [he])
      · exact ih1 he
    · have hlf : cacheLookup sp.score_cache hd.hash = none :=
        Option.not_isSome_iff_eq_none.1 hcache
      rcases hsc : sp.scoring_function hd data with _ | sc
      · have hres : sp.evaluate_scores (hd :: t) data = sp.evaluate_scores t data := by
          rw [GeneralScoreProvider.evaluate_scores, if_neg (by rw [hlf]; simp), hsc]
        rw [hres]
        exact ih sp data a hl (fun b hb hh => herr b (List.mem_cons_of_mem _ hb) hh)
      · have hne : hd.hash ≠ a.hash := by
          intro he
          have := herr hd (List.mem_cons_self hd t) he
          rw [this] at hsc
          exact Option.noConfusion hsc
        have hres : sp.evaluate_scores (hd :: t) data =
            (({ sp with score_cache := cacheInsert sp.score_cache hd.hash sc
              }.evaluate_scores t data).1,
             hd :: ({ sp with score_cache := cacheInsert sp.score_cache hd.hash sc
              }.evaluate_scores t data).2) := by
          rw [GeneralScoreProvider.evaluate_scores, if_neg (by rw [hlf]; simp), hsc]
        have hl' : cacheLookup (cacheInsert sp.score_cache hd.hash sc) a.hash = none := by
          rw [cacheLookup_cacheInsert_ne _ _ _ _ (fun hx => hne hx.symm)]
          exact hl
        obtain ⟨ih1, ih2⟩ := ih { sp with score_cache := cacheInsert sp.score_cache hd.hash sc }
          data a hl' (fun b hb hh => herr b (List.mem_cons_of_mem _ hb) hh)
        rw [hres]
        refine ⟨?_, ih2⟩
        intro hmem
        rcases List.mem_cons.1 hmem with he | he
        · exact hne (by rw [he])
        · exact ih1 he

/-- In `evaluate_scores`, an agent that is already cached or whose fitness
evaluation succeeds is kept. -/
theorem evaluate_scores_keeps :
    ∀ (agents : List (Agent G)) (sp : GeneralScoreProvider G D) (data : D) (a : Agent G),
      a ∈ agents →
      ((cacheLookup sp.score_cache a.hash).isSome ∨
        (sp.scoring_function a data).isSome) →
      a ∈ (sp.evaluate_scores agents data).2 := by
  intro agents
  induction agents with
  | nil => intro sp data a ha _; exact absurd ha (List.not_mem_nil a)
  | cons hd t ih =>
    intro sp data a ha hok
    by_cases hcache : (cacheLookup sp.score_cache hd.hash).isSome
    · have hres : sp.evaluate_scores (hd :: t) data =
          ((sp.evaluate_scores t data).1, hd :: (sp.evaluate_scores t data).2) := by
        rw [GeneralScoreProvider.evaluate_scores, if_pos hcache]
      rw [hres]
      rcases List.mem_cons.1 ha with he | he
      · exact List.mem_cons.2 (Or.inl he)
      · exact List.mem_cons.2 (Or.inr (ih sp data a he hok))
    · have hlf : cacheLookup sp.score_cache hd.hash = none :=
        Option.not_isSome_iff_eq_none.1 hcache
      rcases hsc : sp.scoring_function hd data with _ | sc
      · have hres : sp.evaluate_scores (hd :: t) data = sp.evaluate_scores t data := by
          rw [GeneralScoreProvider.evaluate_scores, if_neg (by rw [hlf]; simp), hsc]
        rw [hres]
        rcases List.mem_cons.1 ha with he | he
        · exfalso
          rcases hok with h | h
          · rw [he, hlf] at h
            simp at h
          · rw [he, hsc] at h
            simp at h
        · exact ih sp data a he hok
      · have hres : sp.evaluate_scores (hd :: t) data =
            (({ sp with score_cache := cacheInsert sp.score_cache hd.hash sc
              }.evaluate_scores t data).1,
             hd :: ({ sp with score_cache := cacheInsert sp.score_cache hd.hash sc
              }.evaluate_scores t data).2) := by
          rw [GeneralScoreProvider.evaluate_scores, if_neg (by rw [hlf]; simp), hsc]
        rw [hres]
        rcases List.mem_cons.1 ha with he | he
        · exact List.mem_cons.2 (Or.inl he)
        · refine List.mem_cons.2 (Or.inr (ih _ data a he ?_))
          rcases hok with h | h
          · exact Or.inl (cacheLookup_cacheInsert_isSome _ _ _ _ h)
          · exact Or.inr h

/-- On a cache miss whose fitness evaluation fails, `get_score` panics
(the `unwrap` on the `Err` result). -/
theorem get_score_miss_error_panics (sp : GeneralScoreProvider G D) (agent : Agent G)
    (data : D) (r : Nat) (hl : cacheLookup sp.score_cache agent.hash = none)
    (hsc : sp.scoring_function agent data = none) :
    sp.get_score agent data r = none := by
  rw [GeneralScoreProvider.get_score]
  rcases hg : genRange ((sp.offset * 2) % u64Mod) r with _ | u
  · rfl
  · simp [hl, hsc]

end ScoreProviderLemmas

section ClaimC2C7

/-- C2 (amended): the batch pre-filter `evaluate_scores` excludes an
uncached agent whose fitness evaluation fails (all occurrences of its
genome hash failing): the agent is not kept and its hash is not cached,
while cached or successfully evaluated agents are kept, and the batch never
aborts (the function is total).  `get_score`, by contrast, does not exclude
such an agent: on a cache miss whose fitness evaluation fails it unwraps
the error and terminates abnormally, see `c2_error_filtering_cx`. -/
theorem c2_error_filtering {G D : Type} :
    (∀ (sp : GeneralScoreProvider G D) (agents : List (Agent G)) (data : D) (a : Agent G),
      cacheLookup sp.score_cache a.hash = none →
      (∀ b ∈ agents, b.hash = a.hash → sp.scoring_function b data = none) →
      a ∉ (sp.evaluate_scores agents data).2 ∧
        cacheLookup (sp.evaluate_scores agents data).1.score_cache a.hash = none) ∧
    (∀ (sp : GeneralScoreProvider G D) (agents : List (Agent G)) (data : D) (a : Agent G),
      a ∈ agents →
      ((cacheLookup sp.score_cache a.hash).isSome ∨
        (sp.scoring_function a data).isSome) →
      a ∈ (sp.evaluate_scores agents data).2) ∧
    (∀ (sp : GeneralScoreProvider G D) (agent : Agent G) (data : D) (r : Nat),
      cacheLookup sp.score_cache agent.hash = none →
      sp.scoring_function agent data = none →
      sp.get_score agent data r = none) :=
  ⟨fun sp agents data a hl herr => evaluate_scores_excludes agents sp data a hl herr,
   fun sp agents data a ha hok => evaluate_scores_keeps agents sp data a ha hok,
   fun sp agent data r hl hsc => get_score_miss_error_panics sp agent data r hl hsc⟩

/-- C2 witness: the amended theorem applied to a concrete provider whose
fitness function fails exactly on the gene value 1: agent `[1]` is dropped
and stays uncached, agent `[2]` is kept, and `get_score` on agent `[1]`
panics. -/
theorem c2_error_filtering_witness :
    (cacheLookup (GeneralScoreProvider.mk
        (fun a _ => if a.genes = [1] then none else some 6) 25 [] :
        GeneralScoreProvider Nat Nat).score_cache (Agent.mk [1] 101).hash = none ∧
      Agent.mk [1] 101 ∉ ((GeneralScoreProvider.mk
        (fun a _ => if a.genes = [1] then none else some 6) 25 [] :
        GeneralScoreProvider Nat Nat).evaluate_scores
          [Agent.mk [1] 101, Agent.mk [2] 102] 0).2) ∧
    (Agent.mk [2] 102 ∈ ((GeneralScoreProvider.mk
        (fun a _ => if a.genes = [1] then none else some 6) 25 [] :
        GeneralScoreProvider Nat Nat).evaluate_scores
          [Agent.mk [1] 101, Agent.mk [2] 102] 0).2) ∧
    ((GeneralScoreProvider.mk
        (fun a _ => if a.genes = [1] then none else some 6) 25 [] :
        GeneralScoreProvider Nat Nat).get_score (Agent.mk [1] 101) 0 3 = none) := by
  refine ⟨⟨rfl, ?_⟩, ?_, ?_⟩
  · exact ((c2_error_filtering.1 (GeneralScoreProvider.mk
      (fun a _ => if a.genes = [1] then none else some 6) 25 [])
      [Agent.mk [1] 101, Agent.mk [2] 102] 0 (Agent.mk [1] 101) rfl
      (by decide)).1)
  · exact c2_error_filtering.2.1 (GeneralScoreProvider.mk
      (fun a _ => if a.genes = [1] then none else some 6) 25 [])
      [Agent.mk [1] 101, Agent.mk [2] 102] 0 (Agent.mk [2] 102)
      (by simp) (Or.inr (by simp))
  · exact c2_error_filtering.2.2 (GeneralScoreProvider.mk
      (fun a _ => if a.genes = [1] then none else some 6) 25 [])
      (Agent.mk [1] 101) 0 3 rfl (by simp)

/-- C2 counterexample: `get_score` does not exclude-and-continue on an
uncached agent whose fitness evaluation fails; it terminates abnormally
(the code unwraps the `Err`), returning no provider state and no score. -/
theorem c2_error_filtering_cx :
    (GeneralScoreProvider.mk (fun _ _ => none) 25 [] :
      GeneralScoreProvider Nat Nat).get_score (Agent.mk [0] 100) 0 3 = none := rfl

/-- C7: for a jitter offset `u` drawn uniformly from `[0, 2 * jitter_bound)`,
`get_score` returns `max 0 (true_fitness + u - jitter_bound)` where the true
fitness is the cached value on a hit (cache unchanged) and the host fitness
value, stored into the cache, on a miss.  Stated under no-overflow side
conditions for the u64 additions. -/
theorem c7_get_score_max_formula {G D : Type} (sp : GeneralScoreProvider G D)
    (agent : Agent G) (data : D) (u : Nat)
    (hoff : 0 < sp.offset) (hwrap : sp.offset * 2 < u64Mod) (hu : u < sp.offset * 2) :
    (∀ f, cacheLookup sp.score_cache agent.hash = some f → f + u < u64Mod →
      sp.get_score agent data u =
        some (sp, (max 0 ((f : ℤ) + (u : ℤ) - (sp.offset : ℤ))).toNat)) ∧
    (cacheLookup sp.score_cache agent.hash = none →
      ∀ f, sp.scoring_function agent data = some f → f + u < u64Mod →
        sp.get_score agent data u =
          some ({ sp with score_cache := cacheInsert sp.score_cache agent.hash f },
            (max 0 ((f : ℤ) + (u : ℤ) - (sp.offset : ℤ))).toNat)) := by
  have hne : ¬ ((sp.offset * 2) % u64Mod = 0) := by
    rw [Nat.mod_eq_of_lt hwrap]
    omega
  have hg : genRange ((sp.offset * 2) % u64Mod) u = some u := by
    rw [genRange, if_neg hne, Nat.mod_eq_of_lt hwrap, Nat.mod_eq_of_lt hu]
  have hval : ∀ f : Nat, f + u < u64Mod →
      (if (f + u) % u64Mod ≤ sp.offset then some (0 : Nat)
       else some ((f + u) % u64Mod - sp.offset)) =
        some ((max 0 ((f : ℤ) + (u : ℤ) - (sp.offset : ℤ))).toNat) := by
    intro f hov
    rw [Nat.mod_eq_of_lt hov]
    split <;> (congr 1; omega)
  constructor
  · intro f hf hov
    rw [GeneralScoreProvider.get_score, hg]
    simp only [hf, Option.isSome_some, if_true]
    simp only [GeneralScoreProvider.offset_cached_score, hf]
    rw [hval f hov]
    rfl
  · intro hl f hf hov
    rw [GeneralScoreProvider.get_score, hg]
    simp only [hl, Option.isSome_none, Bool.false_eq_true, if_false, hf]
    simp only [GeneralScoreProvider.offset_cached_score, cacheLookup_cacheInsert_self]
    rw [hval f hov]
    rfl

/-- C7 witness: the theorem applied to a provider with jitter bound 3,
a cached fitness 10 under hash 5 (hit case with u = 4, score 11), and a
fitness function returning 2 for the miss case (u = 4, score 3). -/
theorem c7_get_score_max_formula_witness :
    (0 < (3 : Nat) ∧ (3 : Nat) * 2 < u64Mod ∧ (4 : Nat) < 3 * 2) ∧
    (GeneralScoreProvider.mk (fun _ _ => some 2) 3 [(5, 10)] :
      GeneralScoreProvider Nat Nat).get_score (Agent.mk [9] 5) 0 4 =
      some (GeneralScoreProvider.mk (fun _ _ => some 2) 3 [(5, 10)],
        (max 0 ((10 : ℤ) + (4 : ℤ) - (3 : ℤ))).toNat) ∧
    (GeneralScoreProvider.mk (fun _ _ => some 2) 3 [] :
      GeneralScoreProvider Nat Nat).get_score (Agent.mk [9] 5) 0 4 =
      some (GeneralScoreProvider.mk (fun _ _ => some 2) 3 (cacheInsert [] 5 2),
        (max 0 ((2 : ℤ) + (4 : ℤ) - (3 : ℤ))).toNat) := by
  have h1 : 0 < (3 : Nat) := by norm_num
  have h2 : (3 : Nat) * 2 < u64Mod := by norm_num [u64Mod]
  have h3 : (4 : Nat) < 3 * 2 := by norm_num
  refine ⟨⟨h1, h2, h3⟩, ?_, ?_⟩
  · exact (c7_get_score_max_formula (GeneralScoreProvider.mk (fun _ _ => some 2) 3 [(5, 10)])
      (Agent.mk [9] 5) 0 4 h1 h2 h3).1 10 rfl (by norm_num [u64Mod])
  · exact (c7_get_score_max_formula (GeneralScoreProvider.mk (fun _ _ => some 2) 3 [])
      (Agent.mk [9] 5) 0 4 h1 h2 h3).2 rfl 2 rfl (by norm_num [u64Mod])

end ClaimC2C7

end Srthg
